import Mathlib

/-!
Verification of the obsidian-therapist plugin core against its specification.

The TypeScript sources are shallowly embedded below.  Strings are modelled as
Lean `String`s (a structure around `List Char`); most string algorithms are
expressed over the underlying `List Char` so that they can be reasoned about
with list lemmas.  JavaScript `trim` is modelled with the usual whitespace
characters; all inputs of interest here are ASCII.
-/

/-! ## Generic string helpers (JS primitives used by the sources) -/

/-- Whitespace as recognised by JavaScript `trim` and the `\s` regex class
(restricted to the ASCII range; the sources only ever meet ASCII whitespace). -/
def jsWs (c : Char) : Bool :=
  c = ' ' || c = '\t' || c = '\n' || c = '\r' || c = '\x0b' || c = '\x0c'

/-- Left trim over characters: drop leading whitespace. -/
def trimL (l : List Char) : List Char := l.dropWhile jsWs

/-- Right trim over characters: drop trailing whitespace. -/
def trimR (l : List Char) : List Char := (l.reverse.dropWhile jsWs).reverse

/-- Both-sided trim over characters, modelling JS `String.prototype.trim`. -/
def trimC (l : List Char) : List Char := trimR (trimL l)

/-- String-level trim, modelling JS `s.trim()`. -/
def strTrim (s : String) : String := String.mk (trimC s.toList)

/-- Split a character list at newline characters, modelling JS
`s.split('\n')` (which always returns at least one piece). -/
def splitLines : List Char → List (List Char)
  | [] => [[]]
  | c :: cs =>
    if c = '\n' then [] :: splitLines cs
    else
      match splitLines cs with
      | [] => [[c]]
      | ln :: rest => (c :: ln) :: rest

/-- Join lines with newline separators, modelling JS `lines.join('\n')`. -/
def joinLines : List (List Char) → List Char
  | [] => []
  | [l] => l
  | l :: rest => l ++ '\n' :: joinLines rest

/-- Number of newline characters in a list (used to locate the line that
contains a given character position). -/
def countNl (l : List Char) : Nat := (l.filter (fun c => c = '\n')).length

/-- Index of the first occurrence of `pat` in a list, modelling JS
`s.indexOf(pat)` (with `none` for `-1`). -/
def firstIdxOf (pat : List Char) : List Char → Option Nat
  | [] => if pat.isEmpty then some 0 else none
  | c :: cs =>
    if pat.isPrefixOf (c :: cs) then some 0
    else (firstIdxOf pat cs).map (· + 1)

/-- Index of the last occurrence of `pat` in a list, modelling JS
`s.lastIndexOf(pat)` (with `none` for `-1`). -/
def lastIdxOf (pat : List Char) : List Char → Option Nat
  | [] => if pat.isEmpty then some 0 else none
  | c :: cs =>
    match lastIdxOf pat cs with
    | some j => some (j + 1)
    | none => if pat.isPrefixOf (c :: cs) then some 0 else none

/-- Substring test, modelling JS `s.includes(pat)` / `s.indexOf(pat) !== -1`. -/
def containsStr (s pat : String) : Bool := (firstIdxOf pat.toList s.toList).isSome

/-- Does the character list start with `'>'`?  Models JS
`t.startsWith('>')` on an already trimmed line. -/
def startsWithGT : List Char → Bool
  | [] => false
  | c :: _ => c = '>'

/-- Join strings with a blank line between them, modelling JS
`parts.join('\n\n')`. -/
def joinNN : List String → String
  | [] => ""
  | [s] => s
  | s :: rest => s ++ "\n\n" ++ joinNN rest

/-- Concatenation of a list of strings. -/
def strConcat : List String → String
  | [] => ""
  | s :: rest => s ++ strConcat rest

/-- Index of the first element satisfying `p`, modelling the index-scanning
loops (`for (let i = ...) { ... break; }`) of the sources. -/
def findIdxQ (p : List Char → Bool) : List (List Char) → Option Nat
  | [] => none
  | x :: xs => if p x then some 0 else (findIdxQ p xs).map (· + 1)

/-- Map with the element index, modelling JS `array.map((x, i) => ...)`. -/
def mapWithIdx (f : Nat → List Char → List Char) : Nat → List (List Char) → List (List Char)
  | _, [] => []
  | i, l :: ls => f i l :: mapWithIdx f (i + 1) ls

/-- ASCII lower-casing of a string, modelling JS `s.toLowerCase()` on the
ASCII inputs used by the engagement cues. -/
def toLowerStr (s : String) : String := String.mk (s.toList.map Char.toLower)

/-! ## contentParser.ts -/

/-- Source constant `THERAPIST_PREFIX = '> **Therapist:**'` (renamed here). -/
def THERAPIST_MARKER : String := "> **Therapist:**"

/-- Source `getTherapistPrefix(name)`: builds the marker for a custom label
(renamed here, same construction). -/
def getTherapistMarker (name : String) : String := "> **" ++ name ++ ":**"

/-- Skip test used inside `getNewContent`'s scan loop: the line is blank or
its trimmed form starts with `'>'` (still inside the blockquote). -/
def lineSkip (line : List Char) : Bool :=
  (trimC line).isEmpty || startsWithGT (trimC line)

/-- Source `getNewContent(fullContent)`: take the substring from the last
occurrence of the attribution marker, split it into lines and scan for the
first line that is neither blank nor `'>'`-prefixed; join from there and
trim.  With no marker, return the whole input trimmed. -/
def getNewContent (fullContent : String) : String :=
  match lastIdxOf THERAPIST_MARKER.toList fullContent.toList with
  | none => strTrim fullContent
  | some i =>
    let lines := splitLines (fullContent.toList.drop i)
    match findIdxQ (fun line => !(lineSkip line)) lines with
    | none => ""
    | some k => String.mk (trimC (joinLines (lines.drop k)))

/-- Source `isTherapistResponse(content)`: trimmed content starts with the
constant marker `THERAPIST_PREFIX` (not the configurable one). -/
def isTherapistResponse (content : String) : Bool :=
  THERAPIST_MARKER.toList.isPrefixOf (trimC content.toList)

/-- Source `formatResponse(response, therapistName)`: first line gets the
marker, blank lines become bare `'>'`, other lines get `'> '`, and the block
is wrapped in blank lines.  The source's default argument
`therapistName = 'Therapist'` is passed explicitly at call sites here. -/
def formatResponse (response : String) (therapistName : String) : String :=
  let pfx := getTherapistMarker therapistName
  let lines := splitLines response.toList
  let blockquoted := mapWithIdx
    (fun i line =>
      if i = 0 then pfx.toList ++ ' ' :: line
      else if trimC line = [] then ['>']
      else '>' :: ' ' :: line) 0 lines
  "\n\n" ++ String.mk (joinLines blockquoted) ++ "\n\n"

/-- Source constant `JOURNAL_HEADERS`. -/
def JOURNAL_HEADERS : List String := ["# Journal", "## Journal", "### Journal"]

/-- Heading level of a recognised journal header literal: the number of
leading `'#'` characters (source: `header.split(' ')[0].length`). -/
def headerLevel (header : String) : Nat :=
  (header.toList.takeWhile (fun c => c = '#')).length

/-- One iteration of the header-search loop of `getJournalContent`: keep the
candidate whose occurrence index is smallest
(`idx !== -1 && (journalStart === -1 || idx < journalStart)`). -/
def jsStep (l : List Char) (acc : Option (Nat × Nat)) (header : String) :
    Option (Nat × Nat) :=
  match firstIdxOf header.toList l with
  | none => acc
  | some idx =>
    match acc with
    | none => some (idx, headerLevel header)
    | some (js, _) => if idx < js then some (idx, headerLevel header) else acc

/-- The header-search loop of `getJournalContent`: earliest occurrence of any
journal header literal wins, together with its level. -/
def findJournalStart (l : List Char) : Option (Nat × Nat) :=
  JOURNAL_HEADERS.foldl (jsStep l) none

/-- End-of-section test used by `getJournalContent`: the line matches
`/^(#{1,6})\s/` and the captured run of `'#'` has length at most `hl`. -/
def isHeadingLE (hl : Nat) (line : List Char) : Bool :=
  let hashes := line.takeWhile (fun c => c = '#')
  decide (1 ≤ hashes.length) && decide (hashes.length ≤ 6) &&
    decide (hashes.length ≤ hl) &&
    (match line.drop hashes.length with
     | c :: _ => jsWs c
     | [] => false)

/-- Source `getJournalContent(fullContent)`: find the earliest journal header
literal, then return the trimmed join of the lines after the header's line up
to (excluding) the next heading of equal or higher level.  The source's
index loop from `i = 1` with `break` is rendered as `drop 1` followed by
`takeWhile` of the negated end test. -/
def getJournalContent (fullContent : String) : Option String :=
  match findJournalStart fullContent.toList with
  | none => none
  | some (js, hl) =>
    let lines := splitLines (fullContent.toList.drop js)
    let body := (lines.drop 1).takeWhile (fun line => !(isHeadingLE hl line))
    some (String.mk (trimC (joinLines body)))

/-- Source cue list of `hasEngagementCue`. -/
def ENGAGEMENT_CUES : List String :=
  ["you know", "right?", "what do you think", "any thoughts", "help me",
   "i need", "should i", "could i", "what should", "what would", "advice",
   "suggest", "opinion", "perspective", "thoughts?", "ideas?"]

/-- Source `hasEngagementCue(content)`: a literal `'?'` anywhere, or any cue
phrase inside the lower-cased content. -/
def hasEngagementCue (content : String) : Bool :=
  containsStr content "?" ||
    ENGAGEMENT_CUES.any (fun cue => containsStr (toLowerStr content) cue)

/-! ## VaultIndexer.ts -/

/-- Tail test for the journal-header regex: after `Journal`, the rest of the
input must be a run of `\s` characters ending at a line terminator or at the
end of input (this is `\s*$` of `/^##\s+Journal\s*$/m`, with the regex
engine's backtracking resolved: a match exists exactly when whitespace leads
to a `'\n'` or to the end). -/
def regexTailWs : List Char → Bool
  | [] => true
  | c :: cs => if c = '\n' then true else jsWs c && regexTailWs cs

/-- Match of `/^##\s+Journal\s*$/` at one position: exactly two `'#'`, then at
least one `\s` character (possibly spanning line breaks), then the literal
`Journal`, then `\s*$`.  Greedy whitespace is complete here because `\s`
never matches `'J'`. -/
def journalRegexAt : List Char → Bool
  | '#' :: '#' :: rest =>
    let run := rest.takeWhile jsWs
    let after := rest.dropWhile jsWs
    !run.isEmpty && "Journal".toList.isPrefixOf after &&
      regexTailWs (after.drop 7)
  | _ => false

/-- Scan of all `^` anchor positions (start of input or just after `'\n'`)
for a match of the journal-header regex. -/
def journalRegexScan : List Char → Bool → Bool
  | [], _ => false
  | c :: cs, atStart =>
    (atStart && journalRegexAt (c :: cs)) || journalRegexScan cs (c = '\n')

/-- Source `hasJournalHeader` (VaultIndexer): content-level test
`/^##\s+Journal\s*$/m.test(content)` (the file read is abstracted away). -/
def hasJournalHeaderContent (content : String) : Bool :=
  journalRegexScan content.toList true

/-- Source constant `CHUNK_SIZE = 1000`. -/
def CHUNK_SIZE : Nat := 1000

/-- Source constant `CHUNK_OVERLAP = 100`. -/
def CHUNK_OVERLAP : Nat := 100

/-- One chunk produced by `chunkText`: the passage text together with its
metadata record `{ file, chunk: String(chunkIndex) }`. -/
structure PChunk where
  text : String
  file : String
  chunk : String
deriving DecidableEq, Repr

/-- The `while (start < text.length)` loop of `chunkText`, embedded with a
fuel argument (the wrapper passes `text.length + 1`, which is always enough:
every iteration advances `start` by `CHUNK_SIZE - CHUNK_OVERLAP = 900` or
stops; fuel-independence is proved as part of the termination claim).  The
loop body: take the window `[start, min(start+CHUNK_SIZE, len))`, push it
with a 1-based `Part` header, move `start` to `end - CHUNK_OVERLAP` and stop
as soon as `start >= len - CHUNK_OVERLAP`. -/
def chunkLoopFuel (l : List Char) (fileName : String) : Nat → Nat → Nat → List PChunk
  | 0, _, _ => []
  | fuel + 1, start, chunkIndex =>
    if start < l.length then
      let e := min (start + CHUNK_SIZE) l.length
      let c := (l.take e).drop start
      let pc : PChunk :=
        ⟨"[" ++ fileName ++ " - Part " ++ toString (chunkIndex + 1) ++ "]\n\n" ++ String.mk c,
          fileName, toString chunkIndex⟩
      if l.length - CHUNK_OVERLAP ≤ e - CHUNK_OVERLAP then [pc]
      else pc :: chunkLoopFuel l fileName fuel (e - CHUNK_OVERLAP) (chunkIndex + 1)
    else []

/-- Source `chunkText(text, fileName)`: a single header-only chunk for texts
of at most `CHUNK_SIZE` characters, otherwise the window loop. -/
def chunkText (text : String) (fileName : String) : List PChunk :=
  let l := text.toList
  if l.length ≤ CHUNK_SIZE then
    [⟨"[" ++ fileName ++ "]\n\n" ++ text, fileName, "0"⟩]
  else chunkLoopFuel l fileName (l.length + 1) 0 0

/-- Window of the chunk loop starting at `s`: the characters
`[s, min(s + CHUNK_SIZE, length))`. -/
def windowC (l : List Char) (s : Nat) : List Char :=
  (l.take (min (s + CHUNK_SIZE) l.length)).drop s

/-- The chunk that the loop pushes for window start `s` and index `i`. -/
def partAt (f : String) (l : List Char) (s i : Nat) : PChunk :=
  ⟨"[" ++ f ++ " - Part " ++ toString (i + 1) ++ "]\n\n" ++ String.mk (windowC l s),
    f, toString i⟩

/-- The `j`-th chunk of a long text: window start `900 * j`, index `j`. -/
def partChunk (f : String) (l : List Char) (j : Nat) : PChunk :=
  partAt f l ((CHUNK_SIZE - CHUNK_OVERLAP) * j) j

/-! ## Multi-agent orchestration (main.ts, multi-agent variant)

The `AgentConfig` record of the multi-agent settings is not declared under
the sources; its fields (`id`, `name`, `enabled`, `order`) are taken from
their uses in `getEnabledAgents` and `getAgentResponses`. -/

/-- Composition mode of the multi-agent settings
(`multiAgentMode: 'single' | 'sequential' | 'parallel'`). -/
inductive MultiAgentMode where
  | single
  | sequential
  | parallel
deriving DecidableEq, Repr

/-- One configured agent identity, with fields as used by the orchestrator. -/
structure AgentCfg where
  id : String
  name : String
  enabled : Bool
  order : Int
deriving DecidableEq, Repr

/-- The slice of the multi-agent `TherapistSettings` that the orchestrator
reads (`agents`, `multiAgentMode`, `primaryAgentId`). -/
structure MASettings where
  agents : List AgentCfg
  multiAgentMode : MultiAgentMode
  primaryAgentId : String

/-- Stable insertion into a list sorted by `order` (ties keep the existing
element first). -/
def insertByOrder (x : AgentCfg) : List AgentCfg → List AgentCfg
  | [] => [x]
  | y :: ys => if x.order < y.order then x :: y :: ys else y :: insertByOrder x ys

/-- Stable sort by the numeric `order` field, modelling the JS stable
`agents.sort((a, b) => a.order - b.order)`. -/
def sortByOrder (l : List AgentCfg) : List AgentCfg :=
  l.foldl (fun acc x => insertByOrder x acc) []

/-- Source `getEnabledAgents()`: in `single` mode the agent with
`id === primaryAgentId` (else the first agent, else nobody); in the other
modes the enabled agents sorted by `order`. -/
def getEnabledAgents (s : MASettings) : List AgentCfg :=
  match s.multiAgentMode with
  | .single =>
    match s.agents.find? (fun a => a.id == s.primaryAgentId) with
    | some primary => [primary]
    | none => s.agents.take 1
  | _ => sortByOrder (s.agents.filter (fun a => a.enabled))

/-- One per-agent outcome as recorded by `getAgentResponses`
(`{ agentId, name, content }`). -/
structure AgentResponse where
  agentId : String
  name : String
  content : String
deriving DecidableEq, Repr

/-- A remote call is modelled as a function from agent id and message to
`Except Unit String`: `Except.error` stands for a thrown/rejected
`sendMessage` call, `Except.ok` for its reply. -/
abbrev SendFn := String → String → Except Unit String

/-- The sequential branch of `getAgentResponses`: agents are called one at a
time; a successful reply is recorded and, when non-empty after trimming,
appended to the accumulated context as `'\n\n[<name>]: <reply>'`; a throwing
agent is skipped (logged in the source) without touching context or list. -/
def seqLoop (send : SendFn) : String → List AgentCfg → List AgentResponse
  | _, [] => []
  | context, agent :: rest =>
    match send agent.id context with
    | .ok response =>
      let newContext :=
        if (trimC response.toList).isEmpty then context
        else context ++ "\n\n[" ++ agent.name ++ "]: " ++ response
      ⟨agent.id, agent.name, response⟩ :: seqLoop send newContext rest
    | .error _ => seqLoop send context rest

/-- Source `getAgentResponses(agents, content)`: in `parallel` mode every
agent is mapped independently over the same content (a failure contributes an
empty output — the per-promise `catch`); every other mode takes the
sequential loop.  `Promise.all` preserves the input order, which the `map`
models; the total return type records that no exception escapes. -/
def getAgentResponses (mode : MultiAgentMode) (send : SendFn)
    (agents : List AgentCfg) (content : String) : List AgentResponse :=
  match mode with
  | .parallel =>
    agents.map (fun agent =>
      match send agent.id content with
      | .ok response => ⟨agent.id, agent.name, response⟩
      | .error _ => ⟨agent.id, agent.name, ""⟩)
  | _ => seqLoop send content agents

/-- The merge step of the multi-agent `handleEditorChange`:
`responses.filter(r => r.content.trim()).map(r => r.content).join('\n\n')`. -/
def mergeResponses (responses : List AgentResponse) : String :=
  joinNN ((responses.filter (fun r => !(trimC r.content.toList).isEmpty)).map
    (fun r => r.content))

/-- The multi-agent `handleEditorChange` as a pure function from the document
text to the text inserted at the cursor (`none` when the cycle inserts
nothing).  The reentrancy guard, cursor motion and logging are outside the
model; the `try/catch` is subsumed by the total return type. -/
def handleEditorMulti (s : MASettings) (content : String) (send : SendFn) :
    Option String :=
  let enabledAgents := getEnabledAgents s
  if enabledAgents.length = 0 then none
  else
    let newContent := getNewContent content
    if newContent = "" then none
    else if isTherapistResponse newContent then none
    else
      let responses := getAgentResponses s.multiAgentMode send enabledAgents newContent
      if responses.length > 0 then
        let combinedResponse := mergeResponses responses
        if combinedResponse ≠ "" then some (formatResponse combinedResponse "Therapist")
        else none
      else none

/-! ## Single-agent session controller (src/main.ts) -/

/-- The single-agent `handleEditorChange` as a pure function from the
document text to the inserted text (`none` when nothing is inserted): guard
on a configured agent (`agentId` non-empty — JS falsy check), require a
non-empty Journal Section, extract the delta, refuse agent-authored deltas,
build the engagement prompt, call the agent, and insert only replies whose
trimmed text is neither empty nor the `'[listening]'` sentinel. -/
def handleEditorSingle (agentId : String) (fullContent : String)
    (therapistName : String) (send : SendFn) (forceRespond : Bool) :
    Option String :=
  if agentId = "" then none
  else
    match getJournalContent fullContent with
    | none => none
    | some journalContent =>
      if journalContent = "" then none
      else
        let newContent := getNewContent journalContent
        if newContent = "" then none
        else if isTherapistResponse newContent then none
        else
          let contextPfx :=
            if hasEngagementCue newContent || forceRespond then
              "[User is asking for your input]\n\n"
            else "[User is journaling - respond only if you have something valuable to add]\n\n"
          match send agentId (contextPfx ++ newContent) with
          | .error _ => none
          | .ok response =>
            let trimmedResponse := strTrim response
            if trimmedResponse = "" then none
            else if trimmedResponse = "[listening]" then none
            else some (formatResponse response therapistName)

/-! ## Reference definitions written from the specification's words -/

/-- Modelled from the spec (claim C1 wording): delta extraction by the
reference algorithm.  If the marker is absent, the whole input trimmed.
Otherwise scan the text's lines starting AT the line containing the last
occurrence of the marker; skip lines that are blank or whose trimmed form
starts with `'>'`; the first other line begins the delta (that full line
through the end of text, joined and trimmed); if no such line exists the
delta is empty. -/
def getNewContentClaimRef (fullContent : String) : String :=
  match lastIdxOf THERAPIST_MARKER.toList fullContent.toList with
  | none => strTrim fullContent
  | some i =>
    let lines := splitLines fullContent.toList
    let k0 := countNl (fullContent.toList.take i)
    match findIdxQ (fun line => !(lineSkip line)) (lines.drop k0) with
    | none => ""
    | some k => String.mk (trimC (joinLines (lines.drop (k0 + k))))

/-- Delta extraction as the code actually behaves (the amended reference):
identical to `getNewContentClaimRef` except that the marker's own line is
always skipped (the code scans the substring starting at the marker, whose
first partial line necessarily begins with `'>'`), so scanning starts with
the lines strictly after the marker's line. -/
def getNewContentAmendedRef (fullContent : String) : String :=
  match lastIdxOf THERAPIST_MARKER.toList fullContent.toList with
  | none => strTrim fullContent
  | some i =>
    let lines := splitLines fullContent.toList
    let k0 := countNl (fullContent.toList.take i)
    match findIdxQ (fun line => !(lineSkip line)) (lines.drop (k0 + 1)) with
    | none => ""
    | some k => String.mk (trimC (joinLines (lines.drop (k0 + 1 + k))))

/-- The transcript tag contributed by one recorded reply: non-empty replies
become `'\n\n[<name>]: <reply>'`, empty ones contribute nothing. -/
def responseTag (r : AgentResponse) : String :=
  if (trimC r.content.toList).isEmpty then ""
  else "\n\n[" ++ r.name ++ "]: " ++ r.content

/-- The context an agent receives in sequential mode: the original delta plus
the tags of all previously recorded replies. -/
def taggedTranscript (delta : String) (rs : List AgentResponse) : String :=
  delta ++ strConcat (rs.map responseTag)

/-- The per-agent outcome of a parallel round: the reply on success, the
empty string on failure. -/
def parallelOutcome (send : SendFn) (content : String) (a : AgentCfg) : String :=
  match send a.id content with
  | .ok r => r
  | .error _ => ""

/-- The journal-header literal of a given level. -/
def headerLit : Nat → List Char
  | 1 => "# Journal".toList
  | 2 => "## Journal".toList
  | 3 => "### Journal".toList
  | _ => []

/-- Concrete multi-agent settings used to exhibit the `'[listening]'`
insertion: one enabled agent, parallel mode. -/
def listenSettings : MASettings := ⟨[⟨"a1", "A", true, 0⟩], .parallel, ""⟩

/-- Concrete remote stub whose agent always answers the sentinel. -/
def listenSend : SendFn := fun _ _ => Except.ok "[listening]"

/-- Concrete 2500-character text for the chunker witnesses. -/
def bigText2500 : String := String.mk (List.replicate 2500 'a')

/-! ## Lemmas about line splitting and trimming -/

theorem splitLines_ne_nil (l : List Char) : splitLines l ≠ [] := by
  cases l with
  | nil => simp [splitLines]
  | cons c cs =>
    simp only [splitLines]
    split
    · simp
    · cases h : splitLines cs <;> simp

theorem splitLines_cons_ne (c : Char) (cs : List Char) (h : ¬ c = '\n') :
    ∃ ln rest, splitLines cs = ln :: rest ∧ splitLines (c :: cs) = (c :: ln) :: rest := by
  cases h2 : splitLines cs with
  | nil => exact absurd h2 (splitLines_ne_nil cs)
  | cons ln rest => exact ⟨ln, rest, rfl, by simp [splitLines, h, h2]⟩

theorem countNl_nil : countNl [] = 0 := rfl

theorem countNl_cons (c : Char) (l : List Char) :
    countNl (c :: l) = if c = '\n' then countNl l + 1 else countNl l := by
  simp only [countNl, List.filter_cons]
  split <;> simp_all

theorem splitLines_drop_tail (l : List Char) :
    ∀ i, (splitLines (l.drop i)).drop 1
      = (splitLines l).drop (countNl (l.take i) + 1) := by
  induction l with
  | nil => intro i; simp [splitLines, countNl]
  | cons c cs ih =>
    intro i
    cases i with
    | zero => simp [countNl_nil]
    | succ j =>
      simp only [List.drop_succ_cons, List.take_succ_cons, countNl_cons]
      by_cases hc : c = '\n'
      · subst hc
        simp only [if_pos rfl, splitLines, if_pos rfl]
        rw [ih j]
        rfl
      · obtain ⟨ln, rest, h1, h2⟩ := splitLines_cons_ne c cs hc
        rw [if_neg hc, h2, ih j, h1]
        cases n : countNl (cs.take j) <;> simp

theorem dropWhile_head_false {p : Char → Bool} {l : List Char} {c : Char} {t : List Char}
    (h : l.dropWhile p = c :: t) : p c = false := by
  induction l with
  | nil => simp at h
  | cons a as ih =>
    rw [List.dropWhile_cons] at h
    by_cases ha : p a
    · exact ih (by simpa [ha] using h)
    · simp only [ha, if_false] at h
      cases h
      simpa using ha

theorem trimL_cons_nonws (c : Char) (xs : List Char) (h : jsWs c = false) :
    trimL (c :: xs) = c :: xs := by
  simp [trimL, List.dropWhile_cons, h]

theorem trimR_nil : trimR [] = [] := rfl

theorem trimR_cons_nonws (c : Char) (xs : List Char) (h : jsWs c = false) :
    trimR (c :: xs) = c :: trimR xs := by
  simp only [trimR, List.reverse_cons]
  rw [List.dropWhile_append]
  by_cases he : (xs.reverse.dropWhile jsWs).isEmpty
  · rw [if_pos he]
    have he' : List.dropWhile jsWs xs.reverse = [] := List.isEmpty_iff.mp he
    have hc : List.dropWhile jsWs [c] = [c] := by simp [List.dropWhile_cons, h]
    rw [he', hc]
    rfl
  · rw [if_neg he]
    simp [trimR]

theorem trimR_idem (l : List Char) : trimR (trimR l) = trimR l := by
  simp [trimR, List.reverse_reverse, List.dropWhile_idempotent]

theorem trimC_nil : trimC [] = [] := rfl

theorem trimL_eq_nil_trimC {l : List Char} (h : trimL l = []) : trimC l = [] := by
  simp [trimC, h, trimR_nil]

theorem trimC_head (l : List Char) :
    trimC l = [] ∨ ∃ c t, trimL l = c :: t ∧ jsWs c = false ∧ trimC l = c :: trimR t := by
  cases h : trimL l with
  | nil => exact Or.inl (trimL_eq_nil_trimC h)
  | cons c t =>
    have hc : jsWs c = false := dropWhile_head_false h
    exact Or.inr ⟨c, t, rfl, hc, by simp [trimC, h, trimR_cons_nonws c t hc]⟩

theorem trimC_idem (l : List Char) : trimC (trimC l) = trimC l := by
  rcases trimC_head l with h | ⟨c, t, _, hc, h⟩
  · rw [h, trimC_nil]
  · rw [h]
    simp only [trimC, trimL_cons_nonws c (trimR t) hc]
    rw [trimR_cons_nonws c (trimR t) hc, trimR_idem]

theorem trimC_append_head (l r : List Char) (h : trimC l ≠ []) :
    ∃ c cs cs', trimC l = c :: cs ∧ trimC (l ++ r) = c :: cs' := by
  rcases trimC_head l with h0 | ⟨c, t, h1, hc, h2⟩
  · exact absurd h0 h
  · refine ⟨c, trimR t, trimR (t ++ r), h2, ?_⟩
    have hL : trimL (l ++ r) = c :: (t ++ r) := by
      simp only [trimL] at h1 ⊢
      rw [List.dropWhile_append, h1]
      simp
    simp only [trimC, hL]
    exact trimR_cons_nonws c (t ++ r) hc

theorem trimC_isInfix (l : List Char) : trimC l <:+: l := by
  have h1 : trimC l <+: trimL l := by
    simp only [trimC, trimR]
    have hs : (trimL l).reverse.dropWhile jsWs <:+ (trimL l).reverse :=
      List.dropWhile_suffix jsWs
    have hiff : (((trimL l).reverse.dropWhile jsWs).reverse).reverse <:+ (trimL l).reverse
        ↔ ((trimL l).reverse.dropWhile jsWs).reverse <+: trimL l := List.reverse_suffix
    exact hiff.mp (by simpa using hs)
  have h2 : trimL l <:+ l := List.dropWhile_suffix jsWs
  exact h1.isInfix.trans h2.isInfix

theorem findIdxQ_drop (p : List Char → Bool) :
    ∀ ls k, findIdxQ p ls = some k → ∃ x r, ls.drop k = x :: r ∧ p x = true := by
  intro ls
  induction ls with
  | nil => intro k h; simp [findIdxQ] at h
  | cons x xs ih =>
    intro k h
    unfold findIdxQ at h
    by_cases hp : p x
    · rw [if_pos hp] at h
      cases h
      exact ⟨x, xs, rfl, hp⟩
    · rw [if_neg hp] at h
      cases hxs : findIdxQ p xs with
      | none => rw [hxs] at h; simp at h
      | some k' =>
        rw [hxs, Option.map_some'] at h
        injection h with h
        subst h
        obtain ⟨y, r, hy, hpy⟩ := ih k' hxs
        exact ⟨y, r, by simpa using hy, hpy⟩

theorem findIdxQ_cons (p : List Char → Bool) (x : List Char) (xs : List (List Char)) :
    findIdxQ p (x :: xs) = if p x then some 0 else (findIdxQ p xs).map (· + 1) := rfl

theorem joinLines_cons_head (x : List Char) (r : List (List Char)) :
    ∃ t, joinLines (x :: r) = x ++ t := by
  cases r with
  | nil => exact ⟨[], by simp [joinLines]⟩
  | cons y ys => exact ⟨'\n' :: joinLines (y :: ys), rfl⟩

theorem isPrefixOf_true_iff (l1 : List Char) :
    ∀ l2, l1.isPrefixOf l2 = true ↔ l1 <+: l2 := by
  induction l1 with
  | nil => intro l2; simp [List.isPrefixOf]
  | cons a as ih =>
    intro l2
    cases l2 with
    | nil => simp [List.isPrefixOf]
    | cons b bs =>
      simp [List.isPrefixOf, Bool.and_eq_true, beq_iff_eq, ih bs,
        List.cons_prefix_cons]

/-! ## Lemmas about occurrence search -/

theorem lastIdxOf_eq_none_iff (pat : List Char) :
    ∀ l, lastIdxOf pat l = none ↔ ∀ j, pat.isPrefixOf (l.drop j) = false := by
  intro l
  induction l with
  | nil =>
    simp only [lastIdxOf, List.drop_nil]
    constructor
    · intro h j
      by_cases hp : pat.isEmpty
      · simp [hp] at h
      · cases pat with
        | nil => simp at hp
        | cons a as => simp [List.isPrefixOf]
    · intro h
      have := h 0
      cases pat with
      | nil => simp [List.isPrefixOf] at this
      | cons a as => simp [List.isEmpty]
  | cons c cs ih =>
    constructor
    · intro h j
      simp only [lastIdxOf] at h
      cases hcs : lastIdxOf pat cs with
      | some k => simp [hcs] at h
      | none =>
        rw [hcs] at h
        by_cases hp : pat.isPrefixOf (c :: cs)
        · simp [hp] at h
        · cases j with
          | zero =>
            simp only [List.drop_zero]
            cases hb : pat.isPrefixOf (c :: cs) with
            | false => rfl
            | true => exact absurd hb hp
          | succ k => exact (ih.mp hcs) k
    · intro h
      simp only [lastIdxOf]
      have hcs : lastIdxOf pat cs = none := ih.mpr (fun j => h (j + 1))
      rw [hcs]
      have h0 := h 0
      simp only [List.drop_zero] at h0
      simp [h0]

theorem lastIdxOf_isPrefixOf (pat : List Char) :
    ∀ l i, lastIdxOf pat l = some i → pat.isPrefixOf (l.drop i) = true := by
  intro l
  induction l with
  | nil =>
    intro i h
    simp only [lastIdxOf] at h
    by_cases hp : pat.isEmpty
    · cases pat with
      | nil => simp [List.isPrefixOf]
      | cons a as => simp at hp
    · simp [hp] at h
  | cons c cs ih =>
    intro i h
    simp only [lastIdxOf] at h
    cases hcs : lastIdxOf pat cs with
    | some k =>
      rw [hcs] at h
      cases h
      simpa using ih k hcs
    | none =>
      rw [hcs] at h
      by_cases hp : pat.isPrefixOf (c :: cs)
      · simp only [hp, if_true] at h
        cases h
        simpa using hp
      · simp [hp] at h

/-! ## Branch equations of the delta extractor -/

theorem getNewContent_no_marker (s : String)
    (h : lastIdxOf THERAPIST_MARKER.toList s.toList = none) :
    getNewContent s = strTrim s := by
  unfold getNewContent
  rw [h]

theorem getNewContent_no_user (s : String) (i : Nat)
    (h1 : lastIdxOf THERAPIST_MARKER.toList s.toList = some i)
    (h2 : findIdxQ (fun line => !(lineSkip line))
      (splitLines (s.toList.drop i)) = none) :
    getNewContent s = "" := by
  unfold getNewContent
  rw [h1]
  show (match findIdxQ (fun line => !(lineSkip line))
      (splitLines (s.toList.drop i)) with
    | none => ""
    | some k =>
      String.mk (trimC (joinLines ((splitLines (s.toList.drop i)).drop k)))) = ""
  rw [h2]

theorem getNewContent_found (s : String) (i k : Nat)
    (h1 : lastIdxOf THERAPIST_MARKER.toList s.toList = some i)
    (h2 : findIdxQ (fun line => !(lineSkip line))
      (splitLines (s.toList.drop i)) = some k) :
    getNewContent s
      = String.mk (trimC (joinLines ((splitLines (s.toList.drop i)).drop k))) := by
  unfold getNewContent
  rw [h1]
  show (match findIdxQ (fun line => !(lineSkip line))
      (splitLines (s.toList.drop i)) with
    | none => ""
    | some k =>
      String.mk (trimC (joinLines ((splitLines (s.toList.drop i)).drop k))))
    = String.mk (trimC (joinLines ((splitLines (s.toList.drop i)).drop k)))
  rw [h2]

/-! ## Claim C8 -/

/-- Claim C8: for every input text, the extracted delta is never itself
classified as an agent response: `isTherapistResponse (getNewContent text)`
is false.  When the marker is absent the trimmed input cannot begin with a
marker it does not contain; when it is present the returned delta is empty
or begins (after trimming) with a character other than `'>'`. -/
theorem delta_never_marked_as_response (s : String) :
    isTherapistResponse (getNewContent s) = false := by
  cases h : lastIdxOf THERAPIST_MARKER.toList s.toList with
  | none =>
    rw [getNewContent_no_marker s h]
    unfold isTherapistResponse strTrim
    have hl : (String.mk (trimC s.toList)).toList = trimC s.toList := rfl
    rw [hl, trimC_idem]
    cases hb : THERAPIST_MARKER.toList.isPrefixOf (trimC s.toList) with
    | false => rfl
    | true =>
      exfalso
      have hpre : THERAPIST_MARKER.toList <+: trimC s.toList :=
        (isPrefixOf_true_iff THERAPIST_MARKER.toList (trimC s.toList)).mp hb
      have hinf : THERAPIST_MARKER.toList <:+: s.toList :=
        hpre.isInfix.trans (trimC_isInfix s.toList)
      obtain ⟨u, v, huv⟩ := hinf
      have hj : THERAPIST_MARKER.toList.isPrefixOf (s.toList.drop u.length) = true := by
        apply (isPrefixOf_true_iff THERAPIST_MARKER.toList (s.toList.drop u.length)).mpr
        rw [← huv]
        simp
      have := (lastIdxOf_eq_none_iff THERAPIST_MARKER.toList s.toList).mp h u.length
      rw [this] at hj
      exact Bool.false_ne_true hj
  | some i =>
    cases hf : findIdxQ (fun line => !(lineSkip line))
        (splitLines (s.toList.drop i)) with
    | none =>
      rw [getNewContent_no_user s i h hf]
      decide
    | some k =>
      rw [getNewContent_found s i k h hf]
      obtain ⟨x, r, hx, hpx⟩ := findIdxQ_drop _ _ k hf
      rw [hx]
      have hskip : lineSkip x = false := by
        cases hls : lineSkip x with
        | false => rfl
        | true => rw [hls] at hpx; exact absurd hpx (by decide)
      have hnonempty : (trimC x).isEmpty = false := by
        cases he : (trimC x).isEmpty with
        | false => rfl
        | true => exfalso; unfold lineSkip at hskip; rw [he] at hskip; simp at hskip
      have hgt : startsWithGT (trimC x) = false := by
        cases hg : startsWithGT (trimC x) with
        | false => rfl
        | true => exfalso; unfold lineSkip at hskip; rw [hg] at hskip; simp at hskip
      obtain ⟨t, ht⟩ := joinLines_cons_head x r
      rw [ht]
      unfold isTherapistResponse
      have hl2 : (String.mk (trimC (x ++ t))).toList = trimC (x ++ t) := rfl
      rw [hl2, trimC_idem]
      have hxne : trimC x ≠ [] := by
        intro hc; rw [hc] at hnonempty; simp at hnonempty
      obtain ⟨c, cs, cs', hcx, hcxt⟩ := trimC_append_head x t hxne
      rw [hcxt]
      have hcne : ¬ c = '>' := by
        intro hc
        rw [hcx] at hgt
        unfold startsWithGT at hgt
        rw [hc] at hgt
        simp at hgt
      have hmark : THERAPIST_MARKER.toList = '>' :: " **Therapist:**".toList := rfl
      rw [hmark]
      show List.isPrefixOf ('>' :: " **Therapist:**".toList) (c :: cs') = false
      simp [List.isPrefixOf, Ne.symm hcne]

/-! ## Claim C1 -/

theorem trimC_cons_nonws (c : Char) (xs : List Char) (h : jsWs c = false) :
    trimC (c :: xs) = c :: trimR xs := by
  simp only [trimC, trimL_cons_nonws c xs h]
  exact trimR_cons_nonws c xs h

theorem marker_head (l : List Char)
    (h : THERAPIST_MARKER.toList.isPrefixOf l = true) : ∃ tail, l = '>' :: tail := by
  cases l with
  | nil => simp [THERAPIST_MARKER, List.isPrefixOf] at h
  | cons b bs =>
    have hm : THERAPIST_MARKER.toList = '>' :: " **Therapist:**".toList := rfl
    rw [hm] at h
    simp only [List.isPrefixOf, Bool.and_eq_true, beq_iff_eq] at h
    exact ⟨bs, by rw [← h.1]⟩

theorem amendedRef_no_marker (s : String)
    (h : lastIdxOf THERAPIST_MARKER.toList s.toList = none) :
    getNewContentAmendedRef s = strTrim s := by
  unfold getNewContentAmendedRef
  rw [h]

theorem amendedRef_no_user (s : String) (i : Nat)
    (h1 : lastIdxOf THERAPIST_MARKER.toList s.toList = some i)
    (h2 : findIdxQ (fun line => !(lineSkip line))
      ((splitLines s.toList).drop (countNl (s.toList.take i) + 1)) = none) :
    getNewContentAmendedRef s = "" := by
  unfold getNewContentAmendedRef
  rw [h1]
  show (match findIdxQ (fun line => !(lineSkip line))
      ((splitLines s.toList).drop (countNl (s.toList.take i) + 1)) with
    | none => ""
    | some k =>
      String.mk (trimC (joinLines
        ((splitLines s.toList).drop (countNl (s.toList.take i) + 1 + k))))) = ""
  rw [h2]

theorem amendedRef_found (s : String) (i k : Nat)
    (h1 : lastIdxOf THERAPIST_MARKER.toList s.toList = some i)
    (h2 : findIdxQ (fun line => !(lineSkip line))
      ((splitLines s.toList).drop (countNl (s.toList.take i) + 1)) = some k) :
    getNewContentAmendedRef s
      = String.mk (trimC (joinLines
          ((splitLines s.toList).drop (countNl (s.toList.take i) + 1 + k)))) := by
  unfold getNewContentAmendedRef
  rw [h1]
  show (match findIdxQ (fun line => !(lineSkip line))
      ((splitLines s.toList).drop (countNl (s.toList.take i) + 1)) with
    | none => ""
    | some k =>
      String.mk (trimC (joinLines
        ((splitLines s.toList).drop (countNl (s.toList.take i) + 1 + k)))))
    = String.mk (trimC (joinLines
        ((splitLines s.toList).drop (countNl (s.toList.take i) + 1 + k))))
  rw [h2]

/-- Claim C1, counterexample: on an input whose marker occurrence sits
mid-line after other text, the reference algorithm of the claim keeps the
marker's line (it is neither blank nor `'>'`-prefixed after trimming) while
the code skips to the end and returns the empty delta. -/
theorem delta_claimref_counterexample :
    getNewContent "a> **Therapist:** x" = ""
      ∧ getNewContentClaimRef "a> **Therapist:** x" = "a> **Therapist:** x"
      ∧ getNewContent "a> **Therapist:** x"
          ≠ getNewContentClaimRef "a> **Therapist:** x" :=
  ⟨by decide, by decide, by decide⟩

/-- Claim C1, amended: delta extraction follows the reference algorithm with
one correction — the scan starts at the last occurrence of the marker itself
(whose partial first line always begins with `'>'` and is therefore always
skipped), so the first candidate line for the delta is the line after the
marker's line, even when text precedes the marker on its line.  Formally the
code equals the amended line-based reference on every input. -/
theorem delta_extraction_follows_amended_reference (s : String) :
    getNewContent s = getNewContentAmendedRef s := by
  cases h : lastIdxOf THERAPIST_MARKER.toList s.toList with
  | none => rw [getNewContent_no_marker s h, amendedRef_no_marker s h]
  | some i =>
    obtain ⟨tail, htail⟩ := marker_head (s.toList.drop i)
      (lastIdxOf_isPrefixOf THERAPIST_MARKER.toList s.toList i h)
    obtain ⟨ln, rest, hrest, hsplit⟩ :=
      splitLines_cons_ne '>' tail (by decide)
    have hdrop : splitLines (s.toList.drop i) = ('>' :: ln) :: rest := by
      rw [htail, hsplit]
    have hskip0 : lineSkip ('>' :: ln) = true := by
      have h1 : trimC ('>' :: ln) = '>' :: trimR ln :=
        trimC_cons_nonws '>' ln (by decide)
      simp [lineSkip, h1, startsWithGT]
    have hrest_eq : rest = (splitLines s.toList).drop (countNl (s.toList.take i) + 1) := by
      have := splitLines_drop_tail s.toList i
      rw [hdrop] at this
      simpa using this
    have hfind : findIdxQ (fun line => !(lineSkip line)) (splitLines (s.toList.drop i))
        = (findIdxQ (fun line => !(lineSkip line)) rest).map (· + 1) := by
      rw [hdrop, findIdxQ_cons]
      simp [hskip0]
    cases hrf : findIdxQ (fun line => !(lineSkip line)) rest with
    | none =>
      have hcode : findIdxQ (fun line => !(lineSkip line))
          (splitLines (s.toList.drop i)) = none := by rw [hfind, hrf]; rfl
      rw [getNewContent_no_user s i h hcode,
        amendedRef_no_user s i h (by rw [← hrest_eq]; exact hrf)]
    | some k =>
      have hcode : findIdxQ (fun line => !(lineSkip line))
          (splitLines (s.toList.drop i)) = some (k + 1) := by rw [hfind, hrf]; rfl
      rw [getNewContent_found s i (k + 1) h hcode,
        amendedRef_found s i k h (by rw [← hrest_eq]; exact hrf)]
      have hdd : (splitLines (s.toList.drop i)).drop (k + 1)
          = (splitLines s.toList).drop (countNl (s.toList.take i) + 1 + k) := by
        rw [hdrop]
        show rest.drop k = (splitLines s.toList).drop (countNl (s.toList.take i) + 1 + k)
        rw [hrest_eq, List.drop_drop]
      rw [hdd]

/-! ## Claim C2 -/

/-- Claim C2 is violated by the code: `isTherapistResponse` compares against
the constant marker `'> **Therapist:**'`, not against the marker rebuilt from
the configured label, so a response formatted with the label `'Coach'` is not
recognised, while the default label still is.  This theorem evaluates the
code at the failing input. -/
theorem response_roundtrip_fails_for_custom_label :
    isTherapistResponse (formatResponse "Hello" "Coach") = false
      ∧ isTherapistResponse (formatResponse "Hello" "Therapist") = true
      ∧ getTherapistMarker "Coach" = "> **Coach:**" :=
  ⟨by decide, by decide, by decide⟩

/-! ## Claim C5 -/

theorem strAppend_assoc (a b c : String) : a ++ b ++ c = a ++ (b ++ c) :=
  String.append_assoc a b c

theorem strAppend_empty (a : String) : a ++ "" = a := String.append_empty a

theorem seqLoop_cons (send : SendFn) (context : String) (agent : AgentCfg)
    (rest : List AgentCfg) :
    seqLoop send context (agent :: rest)
      = match send agent.id context with
        | .ok response =>
          ⟨agent.id, agent.name, response⟩ ::
            seqLoop send
              (if (trimC response.toList).isEmpty then context
               else context ++ "\n\n[" ++ agent.name ++ "]: " ++ response) rest
        | .error _ => seqLoop send context rest := rfl

theorem seqLoop_cons_ok_empty (send : SendFn) (context : String) (agent : AgentCfg)
    (rest : List AgentCfg) (response : String)
    (hsend : send agent.id context = Except.ok response)
    (hemp : (trimC response.toList).isEmpty = true) :
    seqLoop send context (agent :: rest)
      = ⟨agent.id, agent.name, response⟩ :: seqLoop send context rest := by
  rw [seqLoop_cons, hsend]
  have h0 : trimC response.data = [] := List.isEmpty_iff.mp hemp
  simp [h0]

theorem seqLoop_cons_ok_nonempty (send : SendFn) (context : String) (agent : AgentCfg)
    (rest : List AgentCfg) (response : String)
    (hsend : send agent.id context = Except.ok response)
    (hemp : (trimC response.toList).isEmpty = false) :
    seqLoop send context (agent :: rest)
      = ⟨agent.id, agent.name, response⟩ ::
          seqLoop send (context ++ "\n\n[" ++ agent.name ++ "]: " ++ response) rest := by
  rw [seqLoop_cons, hsend]
  have h0 : ¬ trimC response.data = [] := by
    intro hx
    have hx' : trimC response.toList = [] := hx
    rw [hx'] at hemp; simp at hemp
  simp [h0]

theorem responseTag_empty (aid name response : String)
    (hemp : (trimC response.toList).isEmpty = true) :
    responseTag ⟨aid, name, response⟩ = "" := by
  have h0 : trimC response.data = [] := List.isEmpty_iff.mp hemp
  simp [responseTag, h0]

theorem responseTag_nonempty (aid name response : String)
    (hemp : (trimC response.toList).isEmpty = false) :
    responseTag ⟨aid, name, response⟩ = "\n\n[" ++ name ++ "]: " ++ response := by
  have h0 : ¬ trimC response.data = [] := by
    intro hx
    have hx' : trimC response.toList = [] := hx
    rw [hx'] at hemp; simp at hemp
  simp [responseTag, h0]

theorem seqLoop_context_invariant (send : SendFn) :
    ∀ (agents : List AgentCfg) (context : String) (k : Nat) (r : AgentResponse),
      (seqLoop send context agents).get? k = some r →
      send r.agentId
          (context ++ strConcat (((seqLoop send context agents).take k).map responseTag))
        = Except.ok r.content := by
  intro agents
  induction agents with
  | nil => intro context k r h; simp [seqLoop] at h
  | cons agent rest ih =>
    intro context k r h
    cases hsend : send agent.id context with
    | error e =>
      rw [seqLoop_cons, hsend] at h ⊢
      exact ih context k r h
    | ok response =>
      by_cases hemp : (trimC response.toList).isEmpty
      · rw [seqLoop_cons_ok_empty send context agent rest response hsend hemp] at h ⊢
        cases k with
        | zero =>
          simp only [List.get?] at h
          cases h
          simp only [List.take_zero, List.map_nil]
          rw [strConcat, strAppend_empty]
          exact hsend
        | succ k' =>
          simp only [List.get?] at h
          have := ih context k' r h
          simp only [List.take_succ_cons, List.map_cons]
          rw [strConcat, responseTag_empty agent.id agent.name response hemp,
            String.empty_append]
          exact this
      · have hempF : (trimC response.toList).isEmpty = false := by
          cases he : (trimC response.toList).isEmpty with
          | false => rfl
          | true => exact absurd he hemp
        rw [seqLoop_cons_ok_nonempty send context agent rest response hsend hempF] at h ⊢
        cases k with
        | zero =>
          simp only [List.get?] at h
          cases h
          simp only [List.take_zero, List.map_nil]
          rw [strConcat, strAppend_empty]
          exact hsend
        | succ k' =>
          simp only [List.get?] at h
          have := ih (context ++ "\n\n[" ++ agent.name ++ "]: " ++ response) k' r h
          simp only [List.take_succ_cons, List.map_cons]
          rw [strConcat, responseTag_nonempty agent.id agent.name response hempF]
          simp only [strAppend_assoc] at this ⊢
          exact this

theorem getAgentResponses_seq (send : SendFn) (agents : List AgentCfg) (content : String) :
    getAgentResponses .sequential send agents content = seqLoop send content agents := rfl

/-- Claim C5: in sequential mode agents run one at a time in list order; every
recorded reply was obtained by calling the agent with the original delta plus
the tagged transcript `'[<name>]: <reply>'` of all prior non-empty replies; a
failing agent's turn is skipped without adding to the transcript or aborting
the rest; and in the concrete `[A, B]` scenario with `A` replying `'noted'`,
`B` is called with exactly the original delta plus `'\n\n[A]: noted'`. -/
theorem sequential_transcript_accumulation
    (send : SendFn) (delta : String) (agents : List AgentCfg)
    (A B a : AgentCfg) (e : Unit) (k : Nat) (r : AgentResponse)
    (hinv : (getAgentResponses .sequential send agents delta).get? k = some r)
    (herr : send a.id delta = Except.error e)
    (hA : send A.id delta = Except.ok "noted") :
    send r.agentId (taggedTranscript delta
        ((getAgentResponses .sequential send agents delta).take k)) = Except.ok r.content
    ∧ getAgentResponses .sequential send (a :: agents) delta
        = getAgentResponses .sequential send agents delta
    ∧ getAgentResponses .sequential send [A, B] delta
        = ⟨A.id, A.name, "noted"⟩ ::
            (match send B.id (delta ++ "\n\n[" ++ A.name ++ "]: " ++ "noted") with
             | .ok rB => [⟨B.id, B.name, rB⟩]
             | .error _ => []) := by
  refine ⟨?_, ?_, ?_⟩
  · rw [getAgentResponses_seq] at hinv ⊢
    exact seqLoop_context_invariant send agents delta k r hinv
  · rw [getAgentResponses_seq, getAgentResponses_seq, seqLoop_cons, herr]
  · rw [getAgentResponses_seq,
      seqLoop_cons_ok_nonempty send delta A [B] "noted" hA (by decide)]
    rw [seqLoop_cons]
    cases send B.id (delta ++ "\n\n[" ++ A.name ++ "]: " ++ "noted") with
    | ok rB => rfl
    | error eB => rfl

/-- Claim C5 witness: the theorem applied at a concrete send function, agent
list and recorded reply. -/
theorem sequential_transcript_accumulation_witness :
    ((getAgentResponses .sequential
        (fun aid m => if aid = "idA" then Except.ok "noted"
          else if aid = "bad" then Except.error ()
          else Except.ok ("echo:" ++ m))
        [⟨"idA", "A", true, 0⟩, ⟨"idB", "B", true, 1⟩] "delta").get? 0
      = some ⟨"idA", "A", "noted"⟩)
    ∧ ((fun aid m => if aid = "idA" then Except.ok "noted"
          else if aid = "bad" then Except.error ()
          else Except.ok ("echo:" ++ m) : SendFn) "bad" "delta" = Except.error ())
    ∧ ((fun aid m => if aid = "idA" then Except.ok "noted"
          else if aid = "bad" then Except.error ()
          else Except.ok ("echo:" ++ m) : SendFn) "idA" "delta" = Except.ok "noted")
    ∧ ((fun aid m => if aid = "idA" then Except.ok "noted"
          else if aid = "bad" then Except.error ()
          else Except.ok ("echo:" ++ m) : SendFn)
          (⟨"idA", "A", "noted"⟩ : AgentResponse).agentId
        (taggedTranscript "delta"
          ((getAgentResponses .sequential
            (fun aid m => if aid = "idA" then Except.ok "noted"
              else if aid = "bad" then Except.error ()
              else Except.ok ("echo:" ++ m))
            [⟨"idA", "A", true, 0⟩, ⟨"idB", "B", true, 1⟩] "delta").take 0))
        = Except.ok (⟨"idA", "A", "noted"⟩ : AgentResponse).content) :=
  ⟨by decide, rfl, rfl,
    (sequential_transcript_accumulation
      (fun aid m => if aid = "idA" then Except.ok "noted"
        else if aid = "bad" then Except.error ()
        else Except.ok ("echo:" ++ m))
      "delta" [⟨"idA", "A", true, 0⟩, ⟨"idB", "B", true, 1⟩]
      ⟨"idA", "A", true, 0⟩ ⟨"idB", "B", true, 1⟩ ⟨"bad", "Bad", true, 2⟩ ()
      0 ⟨"idA", "A", "noted"⟩ (by decide) rfl rfl).1⟩

/-! ## Claim C4 -/

theorem mem_insertByOrder (x y : AgentCfg) :
    ∀ l, y ∈ insertByOrder x l ↔ y = x ∨ y ∈ l := by
  intro l
  induction l with
  | nil => simp [insertByOrder]
  | cons z zs ih =>
    unfold insertByOrder
    by_cases hx : x.order < z.order
    · rw [if_pos hx]
      simp only [List.mem_cons]
    · rw [if_neg hx]
      simp only [List.mem_cons, ih]
      tauto

theorem sorted_insertByOrder (x : AgentCfg) :
    ∀ l, l.Pairwise (fun a b => a.order ≤ b.order) →
      (insertByOrder x l).Pairwise (fun a b => a.order ≤ b.order) := by
  intro l
  induction l with
  | nil => intro _; simp [insertByOrder]
  | cons z zs ih =>
    intro h
    rw [List.pairwise_cons] at h
    obtain ⟨hz, hzs⟩ := h
    unfold insertByOrder
    by_cases hx : x.order < z.order
    · rw [if_pos hx]
      refine List.Pairwise.cons ?_ (List.Pairwise.cons hz hzs)
      intro w hw
      rcases List.mem_cons.mp hw with rfl | hw2
      · exact le_of_lt hx
      · exact le_trans (le_of_lt hx) (hz w hw2)
    · rw [if_neg hx]
      refine List.Pairwise.cons ?_ (ih hzs)
      intro w hw
      rcases (mem_insertByOrder x w zs).mp hw with rfl | hw2
      · exact le_of_not_lt hx
      · exact hz w hw2

theorem perm_insertByOrder (x : AgentCfg) :
    ∀ l, List.Perm (insertByOrder x l) (x :: l) := by
  intro l
  induction l with
  | nil => simp [insertByOrder]
  | cons z zs ih =>
    unfold insertByOrder
    by_cases hx : x.order < z.order
    · rw [if_pos hx]
    · rw [if_neg hx]
      exact (List.Perm.cons z ih).trans (List.Perm.swap x z zs)

theorem foldl_insert_sorted :
    ∀ (l acc : List AgentCfg), acc.Pairwise (fun a b => a.order ≤ b.order) →
      (l.foldl (fun acc x => insertByOrder x acc) acc).Pairwise
        (fun a b => a.order ≤ b.order) := by
  intro l
  induction l with
  | nil => intro acc h; simpa using h
  | cons x xs ih =>
    intro acc h
    simp only [List.foldl_cons]
    exact ih (insertByOrder x acc) (sorted_insertByOrder x acc h)

theorem foldl_insert_perm :
    ∀ (l acc : List AgentCfg),
      List.Perm (l.foldl (fun acc x => insertByOrder x acc) acc) (acc ++ l) := by
  intro l
  induction l with
  | nil => intro acc; simp
  | cons x xs ih =>
    intro acc
    simp only [List.foldl_cons]
    refine (ih (insertByOrder x acc)).trans ?_
    have h1 : List.Perm (insertByOrder x acc ++ xs) ((x :: acc) ++ xs) :=
      (perm_insertByOrder x acc).append_right xs
    refine h1.trans ?_
    simpa using List.perm_middle.symm

theorem sortByOrder_sorted (l : List AgentCfg) :
    (sortByOrder l).Pairwise (fun a b => a.order ≤ b.order) :=
  foldl_insert_sorted l [] (List.Pairwise.nil)

theorem sortByOrder_perm (l : List AgentCfg) : List.Perm (sortByOrder l) l := by
  have := foldl_insert_perm l []
  simpa [sortByOrder] using this

theorem parallel_contents (send : SendFn) (delta : String) :
    ∀ agents, (getAgentResponses .parallel send agents delta).map (fun r => r.content)
      = agents.map (parallelOutcome send delta) := by
  intro agents
  induction agents with
  | nil => rfl
  | cons a rest ih =>
    simp only [getAgentResponses, List.map_cons] at ih ⊢
    cases hs : send a.id delta with
    | ok r => simp [parallelOutcome, hs, ih]
    | error e => simp [parallelOutcome, hs, ih]

theorem parallel_ids (send : SendFn) (delta : String) :
    ∀ agents, (getAgentResponses .parallel send agents delta).map
        (fun r => (r.agentId, r.name))
      = agents.map (fun a => (a.id, a.name)) := by
  intro agents
  induction agents with
  | nil => rfl
  | cons a rest ih =>
    simp only [getAgentResponses, List.map_cons] at ih ⊢
    cases hs : send a.id delta with
    | ok r => simp [hs, ih]
    | error e => simp [hs, ih]

theorem map_content_filter (rs : List AgentResponse) :
    (rs.filter (fun r => !(trimC r.content.toList).isEmpty)).map (fun r => r.content)
      = (rs.map (fun r => r.content)).filter (fun c => !(trimC c.toList).isEmpty) := by
  induction rs with
  | nil => rfl
  | cons r rest ih =>
    have ih2 : (rest.filter (fun r => !(trimC r.content.data).isEmpty)).map
        (fun r => r.content)
      = (rest.map (fun r => r.content)).filter (fun c => !(trimC c.data).isEmpty) := ih
    simp only [List.filter_cons, List.map_cons]
    cases hq : (trimC r.content.toList).isEmpty with
    | true =>
      have hq2 : (trimC r.content.data).isEmpty = true := hq
      simp [hq2, ih2]
    | false =>
      have hq2 : (trimC r.content.data).isEmpty = false := hq
      simp [hq2, ih2]

/-- Claim C4: in parallel mode every agent call is independent — the recorded
outcomes are exactly the per-agent results (reply on success, empty string on
failure) in the agents' list order, no exception escapes (the orchestration
is a total function of the individual outcomes), the merged text is the
blank-line join of exactly the non-empty outcomes in that order, and the
agent list supplied by `getEnabledAgents` in parallel mode is the enabled
agents stably sorted by their numeric `order` field. -/
theorem parallel_independent_merge
    (send : SendFn) (delta : String) (agents : List AgentCfg) (s : MASettings)
    (hmode : s.multiAgentMode = .parallel) :
    (getAgentResponses .parallel send agents delta).map (fun r => r.content)
        = agents.map (parallelOutcome send delta)
    ∧ (getAgentResponses .parallel send agents delta).map (fun r => (r.agentId, r.name))
        = agents.map (fun a => (a.id, a.name))
    ∧ mergeResponses (getAgentResponses .parallel send agents delta)
        = joinNN ((agents.map (parallelOutcome send delta)).filter
            (fun c => !(trimC c.toList).isEmpty))
    ∧ getEnabledAgents s = sortByOrder (s.agents.filter (fun a => a.enabled))
    ∧ (getEnabledAgents s).Pairwise (fun a b => a.order ≤ b.order)
    ∧ List.Perm (getEnabledAgents s) (s.agents.filter (fun a => a.enabled)) := by
  have h4 : getEnabledAgents s = sortByOrder (s.agents.filter (fun a => a.enabled)) := by
    unfold getEnabledAgents
    rw [hmode]
  refine ⟨parallel_contents send delta agents, parallel_ids send delta agents,
    ?_, h4, ?_, ?_⟩
  · unfold mergeResponses
    rw [map_content_filter, parallel_contents]
  · rw [h4]; exact sortByOrder_sorted _
  · rw [h4]; exact sortByOrder_perm _

/-- Claim C4 witness: the theorem applied at a concrete two-agent parallel
setup in which agent `b`'s call throws; the merged result is exactly agent
`a`'s output. -/
theorem parallel_independent_merge_witness :
    (⟨[⟨"a", "A", true, 0⟩, ⟨"b", "B", true, 1⟩], .parallel, ""⟩ : MASettings).multiAgentMode
        = .parallel
    ∧ ((getAgentResponses .parallel
          (fun aid _ => if aid = "a" then Except.ok "hi" else Except.error ())
          [⟨"a", "A", true, 0⟩, ⟨"b", "B", true, 1⟩] "d").map (fun r => r.content)
          = [⟨"a", "A", true, 0⟩, ⟨"b", "B", true, 1⟩].map
              (parallelOutcome (fun aid _ => if aid = "a" then Except.ok "hi"
                else Except.error ()) "d")
        ∧ ((getAgentResponses .parallel
            (fun aid _ => if aid = "a" then Except.ok "hi" else Except.error ())
            [⟨"a", "A", true, 0⟩, ⟨"b", "B", true, 1⟩] "d").map
              (fun r => (r.agentId, r.name))
          = ([⟨"a", "A", true, 0⟩, ⟨"b", "B", true, 1⟩] :
              List AgentCfg).map (fun a => (a.id, a.name)))
        ∧ mergeResponses (getAgentResponses .parallel
            (fun aid _ => if aid = "a" then Except.ok "hi" else Except.error ())
            [⟨"a", "A", true, 0⟩, ⟨"b", "B", true, 1⟩] "d")
          = joinNN (([⟨"a", "A", true, 0⟩, ⟨"b", "B", true, 1⟩].map
              (parallelOutcome (fun aid _ => if aid = "a" then Except.ok "hi"
                else Except.error ()) "d")).filter
              (fun c => !(trimC c.toList).isEmpty))
        ∧ getEnabledAgents ⟨[⟨"a", "A", true, 0⟩, ⟨"b", "B", true, 1⟩], .parallel, ""⟩
          = sortByOrder (([⟨"a", "A", true, 0⟩, ⟨"b", "B", true, 1⟩] :
              List AgentCfg).filter (fun a => a.enabled))
        ∧ (getEnabledAgents
            ⟨[⟨"a", "A", true, 0⟩, ⟨"b", "B", true, 1⟩], .parallel, ""⟩).Pairwise
              (fun a b => a.order ≤ b.order)
        ∧ List.Perm
            (getEnabledAgents ⟨[⟨"a", "A", true, 0⟩, ⟨"b", "B", true, 1⟩], .parallel, ""⟩)
            (([⟨"a", "A", true, 0⟩, ⟨"b", "B", true, 1⟩] :
              List AgentCfg).filter (fun a => a.enabled)))
    ∧ mergeResponses (getAgentResponses .parallel
          (fun aid _ => if aid = "a" then Except.ok "hi" else Except.error ())
          [⟨"a", "A", true, 0⟩, ⟨"b", "B", true, 1⟩] "d") = "hi" :=
  ⟨rfl,
    parallel_independent_merge
      (fun aid _ => if aid = "a" then Except.ok "hi" else Except.error ())
      "d" [⟨"a", "A", true, 0⟩, ⟨"b", "B", true, 1⟩]
      ⟨[⟨"a", "A", true, 0⟩, ⟨"b", "B", true, 1⟩], .parallel, ""⟩ rfl,
    by decide⟩

/-! ## Claim C9 -/

/-- Claim C9: in single composition mode the orchestrator selects exactly the
first agent whose id equals `primaryAgentId` (the per-agent `enabled` flag
and `order` field are not consulted, so a disabled primary is selected and
invoked); with no matching id it falls back to the first agent of the list;
with an empty list it selects nobody and the whole response cycle is
skipped. -/
theorem single_mode_primary_selection
    (s : MASettings) (a : AgentCfg) (content : String) (send : SendFn)
    (delta : String) (r : String)
    (hmode : s.multiAgentMode = .single) :
    (s.agents.find? (fun x => x.id == s.primaryAgentId) = some a →
        getEnabledAgents s = [a] ∧ a.id = s.primaryAgentId)
    ∧ (s.agents.find? (fun x => x.id == s.primaryAgentId) = none →
        getEnabledAgents s = s.agents.take 1)
    ∧ (s.agents = [] →
        getEnabledAgents s = [] ∧ handleEditorMulti s content send = none)
    ∧ (s.agents.find? (fun x => x.id == s.primaryAgentId) = some a →
        send a.id delta = Except.ok r →
        getAgentResponses s.multiAgentMode send (getEnabledAgents s) delta
          = [⟨a.id, a.name, r⟩]) := by
  have hsel : ∀ b, s.agents.find? (fun x => x.id == s.primaryAgentId) = some b →
      getEnabledAgents s = [b] := by
    intro b hb
    unfold getEnabledAgents
    rw [hmode]
    show (match s.agents.find? (fun x => x.id == s.primaryAgentId) with
      | some primary => [primary]
      | none => s.agents.take 1) = [b]
    rw [hb]
  refine ⟨?_, ?_, ?_, ?_⟩
  · intro h
    refine ⟨hsel a h, ?_⟩
    have := List.find?_some h
    simpa using this
  · intro h
    unfold getEnabledAgents
    rw [hmode]
    show (match s.agents.find? (fun x => x.id == s.primaryAgentId) with
      | some primary => [primary]
      | none => s.agents.take 1) = s.agents.take 1
    rw [h]
  · intro h
    have h1 : getEnabledAgents s = [] := by
      unfold getEnabledAgents
      rw [hmode, h]
      rfl
    refine ⟨h1, ?_⟩
    unfold handleEditorMulti
    rw [h1]
    rfl
  · intro hfind hsend
    rw [hsel a hfind, hmode]
    show seqLoop send delta [a] = [⟨a.id, a.name, r⟩]
    rw [seqLoop_cons, hsend]
    rfl

/-- Claim C9 witness: the theorem applied at a concrete settings record whose
primary agent exists but is disabled; it is still the one selected. -/
theorem single_mode_primary_selection_witness :
    (⟨[⟨"x", "X", true, 5⟩, ⟨"p", "P", false, 3⟩], .single, "p"⟩ : MASettings).multiAgentMode
        = .single
    ∧ (⟨[⟨"x", "X", true, 5⟩, ⟨"p", "P", false, 3⟩], .single, "p"⟩ : MASettings).agents.find?
        (fun x => x.id == "p") = some ⟨"p", "P", false, 3⟩
    ∧ getEnabledAgents ⟨[⟨"x", "X", true, 5⟩, ⟨"p", "P", false, 3⟩], .single, "p"⟩
        = [⟨"p", "P", false, 3⟩]
    ∧ (⟨"p", "P", false, 3⟩ : AgentCfg).enabled = false :=
  ⟨rfl, by decide,
    ((single_mode_primary_selection
      ⟨[⟨"x", "X", true, 5⟩, ⟨"p", "P", false, 3⟩], .single, "p"⟩
      ⟨"p", "P", false, 3⟩ "c" (fun _ _ => Except.ok "r") "d" "r" rfl).1 (by decide)).1,
    rfl⟩

/-! ## Claim C3 -/

/-- Claim C3, counterexample: in the multi-agent merge the sentinel is NOT
excluded — only empty outputs are filtered — so with one enabled agent whose
reply is exactly `'[listening]'`, the combined text `'[listening]'` is
formatted and inserted into the document, contradicting the claim that such
outputs are excluded from the merge. -/
theorem listening_inserted_by_multi_merge :
    handleEditorMulti listenSettings "Hello?" listenSend
        = some "\n\n> **Therapist:** [listening]\n\n"
      ∧ containsStr "\n\n> **Therapist:** [listening]\n\n" "[listening]" = true :=
  ⟨by decide, by decide⟩

/-- Claim C3, amended: in the single-agent handler an output whose trimmed
text equals `'[listening]'` is never inserted — anything inserted comes from
a reply whose trimmed text is neither empty nor the sentinel; the multi-agent
merge, however, excludes only empty outputs, so a `'[listening]'` output is
formatted and inserted (shown at a concrete one-agent parallel cycle). -/
theorem single_suppresses_listening_multi_does_not
    (agentId fullContent therapistName out : String) (send : SendFn) (force : Bool)
    (h : handleEditorSingle agentId fullContent therapistName send force = some out) :
    (∃ p resp, send agentId p = Except.ok resp
      ∧ strTrim resp ≠ "" ∧ strTrim resp ≠ "[listening]"
      ∧ out = formatResponse resp therapistName)
    ∧ handleEditorMulti listenSettings "Hello?" listenSend
        = some "\n\n> **Therapist:** [listening]\n\n" := by
  refine ⟨?_, by decide⟩
  unfold handleEditorSingle at h
  dsimp only at h
  split at h
  · exact absurd h (by simp)
  · split at h
    · exact absurd h (by simp)
    · rename_i journalContent hj
      split at h
      · exact absurd h (by simp)
      · split at h
        · exact absurd h (by simp)
        · split at h
          · exact absurd h (by simp)
          · split at h
            · exact absurd h (by simp)
            · rename_i response hsend
              split at h
              · exact absurd h (by simp)
              · split at h
                · exact absurd h (by simp)
                · rename_i hne hnl
                  refine ⟨_, response, hsend, hne, hnl, ?_⟩
                  injection h with h
                  exact h.symm

/-- Claim C3 witness: the amended theorem applied at a concrete single-agent
cycle whose agent answers `'sure'`. -/
theorem single_suppresses_listening_multi_does_not_witness :
    handleEditorSingle "agent" "## Journal\nHello?" "Therapist"
        (fun _ _ => Except.ok "sure") false = some "\n\n> **Therapist:** sure\n\n"
    ∧ ((∃ p resp, (fun _ _ => Except.ok "sure" : SendFn) "agent" p = Except.ok resp
          ∧ strTrim resp ≠ "" ∧ strTrim resp ≠ "[listening]"
          ∧ "\n\n> **Therapist:** sure\n\n" = formatResponse resp "Therapist")
        ∧ handleEditorMulti listenSettings "Hello?" listenSend
            = some "\n\n> **Therapist:** [listening]\n\n") :=
  ⟨by decide,
    single_suppresses_listening_multi_does_not "agent" "## Journal\nHello?" "Therapist"
      "\n\n> **Therapist:** sure\n\n" (fun _ _ => Except.ok "sure") false (by decide)⟩

/-! ## Claims C6 and C10: the chunk loop's closed form -/

theorem chunkLoopFuel_succ (l : List Char) (f : String) (fuel start idx : Nat) :
    chunkLoopFuel l f (fuel + 1) start idx
      = if start < l.length then
          (if l.length - CHUNK_OVERLAP ≤ min (start + CHUNK_SIZE) l.length - CHUNK_OVERLAP
           then [partAt f l start idx]
           else partAt f l start idx ::
             chunkLoopFuel l f fuel (min (start + CHUNK_SIZE) l.length - CHUNK_OVERLAP)
               (idx + 1))
        else [] := rfl

theorem chunkLoopFuel_closed (l : List Char) (f : String) :
    ∀ fuel start idx, CHUNK_SIZE < l.length → start < l.length →
      l.length - start ≤ fuel →
    ∃ n, 0 < n
      ∧ chunkLoopFuel l f fuel start idx
          = (List.range n).map (fun j => partAt f l (start + 900 * j) (idx + j))
      ∧ (∀ j, j < n → start + 900 * j < l.length)
      ∧ l.length ≤ start + 900 * (n - 1) + CHUNK_SIZE
      ∧ (∀ j, j + 1 < n → start + 900 * j + CHUNK_SIZE < l.length) := by
  intro fuel
  induction fuel with
  | zero =>
    intro start idx hlen hstart hfuel
    omega
  | succ fuel ih =>
    intro start idx hlen hstart hfuel
    have hlen2 : 1000 < l.length := hlen
    simp only [CHUNK_SIZE, CHUNK_OVERLAP]
    have hm1 : min (start + 1000) l.length ≤ start + 1000 := Nat.min_le_left _ _
    have hm2 : min (start + 1000) l.length ≤ l.length := Nat.min_le_right _ _
    have hm3 : 1000 ≤ min (start + 1000) l.length :=
      Nat.le_min.mpr ⟨by omega, by omega⟩
    rw [chunkLoopFuel_succ]
    simp only [CHUNK_SIZE, CHUNK_OVERLAP]
    rw [if_pos hstart]
    by_cases hbreak :
        l.length - 100 ≤ min (start + 1000) l.length - 100
    · rw [if_pos hbreak]
      refine ⟨1, by omega, ?_, ?_, by omega, ?_⟩
      · rw [show List.range 1 = [0] from rfl]
        simp
      · intro j hj
        have : j = 0 := by omega
        subst this
        simpa using hstart
      · intro j hj
        omega
    · rw [if_neg hbreak]
      have he : min (start + 1000) l.length = start + 1000 := by
        rcases Nat.le_total (start + 1000) l.length with hle | hle
        · exact Nat.min_eq_left hle
        · exfalso
          have := Nat.min_eq_right hle
          omega
      have helt : start + 1000 < l.length := by omega
      rw [he]
      have harith : start + 1000 - 100 = start + 900 := by omega
      rw [harith]
      obtain ⟨n, hn, heq, hvalid, hlast, hfull⟩ :=
        ih (start + 900) (idx + 1) hlen (by omega) (by omega)
      simp only [CHUNK_SIZE] at hlast hfull
      refine ⟨n + 1, by omega, ?_, ?_, ?_, ?_⟩
      · rw [heq, List.range_succ_eq_map, List.map_cons, List.map_map]
        refine congrArg₂ List.cons ?_ ?_
        · simp
        · refine List.map_congr_left ?_
          intro j hj
          simp only [Function.comp_apply]
          have e1 : start + 900 * Nat.succ j = start + 900 + 900 * j := by
            simp [Nat.succ_eq_add_one]
            ring
          have e2 : idx + Nat.succ j = idx + 1 + j := by omega
          rw [e1, e2]
      · intro j hj
        cases j with
        | zero => simpa using hstart
        | succ j' =>
          have := hvalid j' (by omega)
          omega
      · have : n - 1 + 1 = n := by omega
        omega
      · intro j hj
        cases j with
        | zero => simpa using helt
        | succ j' =>
          have := hfull j' (by omega)
          omega

theorem chunkText_short (t f : String) (h : t.toList.length ≤ CHUNK_SIZE) :
    chunkText t f = [⟨"[" ++ f ++ "]\n\n" ++ t, f, "0"⟩] := by
  unfold chunkText
  rw [if_pos h]

theorem chunkText_long (t f : String) (h : CHUNK_SIZE < t.toList.length) :
    chunkText t f = chunkLoopFuel t.toList f (t.toList.length + 1) 0 0 := by
  unfold chunkText
  rw [if_neg (by omega)]

theorem partChunk_eq_partAt (f : String) (l : List Char) (j : Nat) :
    partChunk f l j = partAt f l (900 * j) j := rfl

/-- Claim C10: `chunkText` terminates on every input (the loop is modelled
with fuel `length + 1`, and any additional fuel yields the same result), and
its chunks cover the input: a short text yields the single full chunk; a long
text yields windows starting at `0, 900, 1800, ...` (each later chunk's
window starts exactly `900` characters after the previous one), the last
window reaches the end of the text, and the metadata chunk indices are the
consecutive integers `0, 1, 2, ...`. -/
theorem chunker_terminates_and_covers (t1 t2 f : String)
    (h1 : t1.toList.length ≤ CHUNK_SIZE) (h2 : CHUNK_SIZE < t2.toList.length) :
    (chunkText t1 f = [⟨"[" ++ f ++ "]\n\n" ++ t1, f, "0"⟩]
      ∧ (chunkText t1 f).map PChunk.chunk = [toString 0])
    ∧ ∃ n, 0 < n
      ∧ chunkText t2 f = (List.range n).map (fun j => partChunk f t2.toList j)
      ∧ (chunkText t2 f).map PChunk.chunk = (List.range n).map (fun j => toString j)
      ∧ (∀ j, j < n → 900 * j < t2.toList.length)
      ∧ t2.toList.length ≤ 900 * (n - 1) + CHUNK_SIZE
      ∧ min (900 * (n - 1) + CHUNK_SIZE) t2.toList.length = t2.toList.length
      ∧ (∀ extra, chunkLoopFuel t2.toList f (t2.toList.length + 1 + extra) 0 0
          = chunkText t2 f) := by
  obtain ⟨n, hn, heq, hvalid, hlast, hfull⟩ :=
    chunkLoopFuel_closed t2.toList f (t2.toList.length + 1) 0 0 h2 (by omega) (by omega)
  have hchunks : chunkText t2 f = (List.range n).map (fun j => partChunk f t2.toList j) := by
    rw [chunkText_long t2 f h2, heq]
    refine List.map_congr_left ?_
    intro j hj
    rw [partChunk_eq_partAt]
    have e1 : 0 + 900 * j = 900 * j := by omega
    have e2 : 0 + j = j := by omega
    rw [e1, e2]
  refine ⟨⟨chunkText_short t1 f h1, ?_⟩,
    n, hn, hchunks, ?_, ?_, by omega, ?_, ?_⟩
  · rw [chunkText_short t1 f h1]
    rfl
  · rw [hchunks, List.map_map]
    refine List.map_congr_left ?_
    intro j hj
    rfl
  · intro j hj
    have := hvalid j hj
    omega
  · have hle : t2.toList.length ≤ 900 * (n - 1) + CHUNK_SIZE := by omega
    exact Nat.min_eq_right hle
  · intro extra
    obtain ⟨n', hn', heq', hvalid', hlast', hfull'⟩ :=
      chunkLoopFuel_closed t2.toList f (t2.toList.length + 1 + extra) 0 0 h2
        (by omega) (by omega)
    have hnn : n' = n := by
      rcases Nat.lt_trichotomy n' n with hlt | heqn | hgt
      · have hf := hfull (n' - 1) (by omega)
        have hl := hlast'
        have hcs : CHUNK_SIZE = 1000 := rfl
        omega
      · exact heqn
      · have hf := hfull' (n - 1) (by omega)
        have hl := hlast
        have hcs : CHUNK_SIZE = 1000 := rfl
        omega
    rw [chunkText_long t2 f h2, heq, heq', hnn]

/-- Claim C10 witness: the theorem applied to the two-character text `"hi"`
and the 2500-character text `bigText2500`. -/
theorem chunker_terminates_and_covers_witness :
    ("hi" : String).toList.length ≤ CHUNK_SIZE
    ∧ CHUNK_SIZE < bigText2500.toList.length
    ∧ ((chunkText "hi" "f.md" = [⟨"[" ++ "f.md" ++ "]\n\n" ++ "hi", "f.md", "0"⟩]
        ∧ (chunkText "hi" "f.md").map PChunk.chunk = [toString 0])
      ∧ ∃ n, 0 < n
        ∧ chunkText bigText2500 "f.md"
            = (List.range n).map (fun j => partChunk "f.md" bigText2500.toList j)
        ∧ (chunkText bigText2500 "f.md").map PChunk.chunk
            = (List.range n).map (fun j => toString j)
        ∧ (∀ j, j < n → 900 * j < bigText2500.toList.length)
        ∧ bigText2500.toList.length ≤ 900 * (n - 1) + CHUNK_SIZE
        ∧ min (900 * (n - 1) + CHUNK_SIZE) bigText2500.toList.length
            = bigText2500.toList.length
        ∧ (∀ extra, chunkLoopFuel bigText2500.toList "f.md"
            (bigText2500.toList.length + 1 + extra) 0 0
              = chunkText bigText2500 "f.md")) := by
  have hlist : bigText2500.toList = List.replicate 2500 'a' := rfl
  have hlen : bigText2500.toList.length = 2500 := by
    rw [hlist, List.length_replicate]
  have hbig : CHUNK_SIZE < bigText2500.toList.length := by
    rw [hlen]
    decide
  exact ⟨by decide, hbig,
    chunker_terminates_and_covers "hi" bigText2500 "f.md" (by decide) hbig⟩

theorem windowC_length_le (l : List Char) (s : Nat) :
    (windowC l s).length ≤ CHUNK_SIZE := by
  have hcs : CHUNK_SIZE = 1000 := rfl
  simp only [windowC, List.length_drop, List.length_take]
  omega

theorem windowC_overlap (l : List Char) (s : Nat) (hs : s + CHUNK_SIZE ≤ l.length) :
    (windowC l s).drop 900 = (windowC l (s + 900)).take 100
    ∧ ((windowC l s).drop 900).length = 100 := by
  have hcs : CHUNK_SIZE = 1000 := rfl
  rw [hcs] at hs
  have hmin1 : min (s + CHUNK_SIZE) l.length = s + 1000 := by
    rw [hcs]
    exact Nat.min_eq_left hs
  have hminM : s + 1000 ≤ min (s + 900 + CHUNK_SIZE) l.length := by
    rw [hcs]
    exact Nat.le_min.mpr ⟨by omega, hs⟩
  constructor
  · unfold windowC
    rw [hmin1, List.drop_drop, List.drop_take, List.drop_take, List.take_take]
    have e1 : s + 1000 - (s + 900) = 100 := by omega
    have e3 : min 100 (min (s + 900 + CHUNK_SIZE) l.length - (s + 900)) = 100 := by
      have : 100 ≤ min (s + 900 + CHUNK_SIZE) l.length - (s + 900) := by omega
      omega
    rw [e1, e3]
  · simp only [windowC, hmin1, List.length_drop, List.length_take]
    omega

/-- Claim C6: with `maxSize = 1000` and `overlap = 100`, a text of length at
most 1000 yields exactly one chunk whose header has no `Part` suffix, and a
2500-character text yields three chunks whose window contents are each at
most 1000 characters, with chunk `i`'s 100-character tail equal to chunk
`i+1`'s 100-character head. -/
theorem chunk_bounds_and_overlap (t1 t2 f1 f2 : String)
    (h1 : t1.toList.length ≤ CHUNK_SIZE) (h2 : t2.toList.length = 2500) :
    chunkText t1 f1 = [⟨"[" ++ f1 ++ "]\n\n" ++ t1, f1, "0"⟩]
    ∧ chunkText t2 f2
        = [partChunk f2 t2.toList 0, partChunk f2 t2.toList 1, partChunk f2 t2.toList 2]
    ∧ (∀ j, j < 3 → (windowC t2.toList (900 * j)).length ≤ CHUNK_SIZE)
    ∧ (windowC t2.toList 0).drop 900 = (windowC t2.toList 900).take 100
    ∧ ((windowC t2.toList 0).drop 900).length = 100
    ∧ (windowC t2.toList 900).drop 900 = (windowC t2.toList 1800).take 100
    ∧ ((windowC t2.toList 900).drop 900).length = 100 := by
  have hcs : CHUNK_SIZE = 1000 := rfl
  have hlen2 : CHUNK_SIZE < t2.toList.length := by rw [h2, hcs]; omega
  obtain ⟨n, hn, heq, hvalid, hlast, hfull⟩ :=
    chunkLoopFuel_closed t2.toList f2 (t2.toList.length + 1) 0 0 hlen2 (by omega) (by omega)
  have hn3 : n = 3 := by
    rw [h2, hcs] at hlast
    have hge : 3 ≤ n := by omega
    have hle : n ≤ 3 := by
      by_contra hc
      push_neg at hc
      have := hfull 2 (by omega)
      rw [h2, hcs] at this
      omega
    omega
  subst hn3
  have hover1 := windowC_overlap t2.toList 0 (by rw [h2, hcs]; omega)
  have hover2 := windowC_overlap t2.toList 900 (by rw [h2, hcs]; omega)
  refine ⟨chunkText_short t1 f1 h1, ?_,
    fun j _ => windowC_length_le t2.toList (900 * j),
    hover1.1, hover1.2, hover2.1, hover2.2⟩
  rw [chunkText_long t2 f2 hlen2, heq]
  rfl

/-- Claim C6 witness: the theorem applied to `"hi"` and the 2500-character
text `bigText2500`. -/
theorem chunk_bounds_and_overlap_witness :
    ("hi" : String).toList.length ≤ CHUNK_SIZE
    ∧ bigText2500.toList.length = 2500
    ∧ (chunkText "hi" "g.md" = [⟨"[" ++ "g.md" ++ "]\n\n" ++ "hi", "g.md", "0"⟩]
      ∧ chunkText bigText2500 "h.md"
          = [partChunk "h.md" bigText2500.toList 0, partChunk "h.md" bigText2500.toList 1,
             partChunk "h.md" bigText2500.toList 2]
      ∧ (∀ j, j < 3 → (windowC bigText2500.toList (900 * j)).length ≤ CHUNK_SIZE)
      ∧ (windowC bigText2500.toList 0).drop 900 = (windowC bigText2500.toList 900).take 100
      ∧ ((windowC bigText2500.toList 0).drop 900).length = 100
      ∧ (windowC bigText2500.toList 900).drop 900
          = (windowC bigText2500.toList 1800).take 100
      ∧ ((windowC bigText2500.toList 900).drop 900).length = 100) := by
  have hlist : bigText2500.toList = List.replicate 2500 'a' := rfl
  have hlen : bigText2500.toList.length = 2500 := by
    rw [hlist, List.length_replicate]
  exact ⟨by decide, hlen,
    chunk_bounds_and_overlap "hi" bigText2500 "g.md" "h.md" (by decide) hlen⟩

/-! ## Claim C7 -/

theorem jsStep_isSome_of_acc (l : List Char) (acc : Option (Nat × Nat)) (h : String)
    (ha : acc.isSome = true) : (jsStep l acc h).isSome = true := by
  unfold jsStep
  cases hf : firstIdxOf h.toList l with
  | none => exact ha
  | some idx =>
    cases acc with
    | none => rfl
    | some p =>
      cases p with
      | mk js hl =>
        by_cases hlt : idx < js
        · simp [hlt]
        · simp [hlt]

theorem jsStep_isSome_of_found (l : List Char) (acc : Option (Nat × Nat)) (h : String)
    (hf : (firstIdxOf h.toList l).isSome = true) : (jsStep l acc h).isSome = true := by
  unfold jsStep
  cases hfo : firstIdxOf h.toList l with
  | none => rw [hfo] at hf; simp at hf
  | some idx =>
    cases acc with
    | none => rfl
    | some p =>
      cases p with
      | mk js hl =>
        by_cases hlt : idx < js
        · simp [hlt]
        · simp [hlt]

theorem jsStep_isSome_elim (l : List Char) (acc : Option (Nat × Nat)) (h : String)
    (hs : (jsStep l acc h).isSome = true) :
    acc.isSome = true ∨ (firstIdxOf h.toList l).isSome = true := by
  unfold jsStep at hs
  cases hfo : firstIdxOf h.toList l with
  | none => rw [hfo] at hs; exact Or.inl hs
  | some idx => exact Or.inr rfl

theorem jsStep_some_elim (l : List Char) (acc : Option (Nat × Nat)) (h : String)
    (js hl : Nat) (hs : jsStep l acc h = some (js, hl)) :
    acc = some (js, hl) ∨ (firstIdxOf h.toList l = some js ∧ hl = headerLevel h) := by
  unfold jsStep at hs
  cases hfo : firstIdxOf h.toList l with
  | none => rw [hfo] at hs; exact Or.inl hs
  | some idx =>
    rw [hfo] at hs
    cases acc with
    | none =>
      injection hs with hs
      injection hs with hs1 hs2
      exact Or.inr ⟨by rw [hs1], hs2.symm⟩
    | some p =>
      cases p with
      | mk js0 hl0 =>
        by_cases hlt : idx < js0
        · simp only [hlt, if_true] at hs
          injection hs with hs
          injection hs with hs1 hs2
          exact Or.inr ⟨by rw [hs1], hs2.symm⟩
        · simp only [hlt, if_false] at hs
          exact Or.inl hs

theorem firstIdxOf_some_pfx (pat : List Char) :
    ∀ l i, firstIdxOf pat l = some i → pat.isPrefixOf (l.drop i) = true := by
  intro l
  induction l with
  | nil =>
    intro i h
    unfold firstIdxOf at h
    by_cases hp : pat.isEmpty
    · cases pat with
      | nil => simp [List.isPrefixOf]
      | cons a as => simp at hp
    · simp [hp] at h
  | cons c cs ih =>
    intro i h
    unfold firstIdxOf at h
    by_cases hp : pat.isPrefixOf (c :: cs)
    · rw [if_pos hp] at h
      injection h with h
      subst h
      simpa using hp
    · rw [if_neg hp] at h
      cases hcs : firstIdxOf pat cs with
      | none => rw [hcs] at h; simp at h
      | some k =>
        rw [hcs, Option.map_some'] at h
        injection h with h
        subst h
        simpa using ih k hcs

theorem findJournalStart_isSome_iff (l : List Char) :
    (findJournalStart l).isSome = true ↔
      ((firstIdxOf "# Journal".toList l).isSome = true
        ∨ (firstIdxOf "## Journal".toList l).isSome = true
        ∨ (firstIdxOf "### Journal".toList l).isSome = true) := by
  have hun : findJournalStart l
      = jsStep l (jsStep l (jsStep l none "# Journal") "## Journal") "### Journal" := rfl
  rw [hun]
  constructor
  · intro hs
    rcases jsStep_isSome_elim l _ _ hs with hs2 | hf3
    · rcases jsStep_isSome_elim l _ _ hs2 with hs1 | hf2
      · rcases jsStep_isSome_elim l _ _ hs1 with hs0 | hf1
        · simp at hs0
        · exact Or.inl hf1
      · exact Or.inr (Or.inl hf2)
    · exact Or.inr (Or.inr hf3)
  · intro hf
    rcases hf with hf1 | hf2 | hf3
    · exact jsStep_isSome_of_acc l _ _
        (jsStep_isSome_of_acc l _ _ (jsStep_isSome_of_found l _ _ hf1))
    · exact jsStep_isSome_of_acc l _ _ (jsStep_isSome_of_found l _ _ hf2)
    · exact jsStep_isSome_of_found l _ _ hf3

theorem getJournalContent_isSome (full : String) :
    (getJournalContent full).isSome = (findJournalStart full.toList).isSome := by
  unfold getJournalContent
  cases h : findJournalStart full.toList with
  | none => rfl
  | some p =>
    cases p with
    | mk js hl => rfl

theorem findJournalStart_some_elim (l : List Char) (js hl : Nat)
    (h : findJournalStart l = some (js, hl)) :
    (hl = 1 ∨ hl = 2 ∨ hl = 3) ∧ (headerLit hl).isPrefixOf (l.drop js) = true := by
  have hun : findJournalStart l
      = jsStep l (jsStep l (jsStep l none "# Journal") "## Journal") "### Journal" := rfl
  rw [hun] at h
  rcases jsStep_some_elim l _ _ js hl h with h2 | ⟨hf, hlev⟩
  · rcases jsStep_some_elim l _ _ js hl h2 with h1 | ⟨hf, hlev⟩
    · rcases jsStep_some_elim l _ _ js hl h1 with h0 | ⟨hf, hlev⟩
      · simp [jsStep] at h0
      · have hl1 : hl = 1 := by rw [hlev]; decide
        subst hl1
        refine ⟨Or.inl rfl, ?_⟩
        have := firstIdxOf_some_pfx "# Journal".toList l js hf
        simpa [headerLit] using this
    · have hl2 : hl = 2 := by rw [hlev]; decide
      subst hl2
      refine ⟨Or.inr (Or.inl rfl), ?_⟩
      have := firstIdxOf_some_pfx "## Journal".toList l js hf
      simpa [headerLit] using this
  · have hl3 : hl = 3 := by rw [hlev]; decide
    subst hl3
    refine ⟨Or.inr (Or.inr rfl), ?_⟩
    have := firstIdxOf_some_pfx "### Journal".toList l js hf
    simpa [headerLit] using this

theorem getJournalContent_found (full : String) (js hl : Nat)
    (h : findJournalStart full.toList = some (js, hl)) :
    getJournalContent full
      = some (String.mk (trimC (joinLines
          (((splitLines full.toList).drop (countNl (full.toList.take js) + 1)).takeWhile
            (fun line => !(isHeadingLE hl line)))))) := by
  unfold getJournalContent
  rw [h]
  show some (String.mk (trimC (joinLines
      (((splitLines (full.toList.drop js)).drop 1).takeWhile
        (fun line => !(isHeadingLE hl line)))))) = _
  rw [splitLines_drop_tail]

/-- Claim C7, counterexample: a level-1 `'# Journal'` heading is recognised
by `getJournalContent` (literal substring search) but rejected by the
indexing filter's journal test, which is the regex `/^##\s+Journal\s*$/m`
and therefore only accepts full-line level-2 headings — so the components do
NOT perform the same check. -/
theorem journal_filter_counterexample :
    (getJournalContent "# Journal\nhello").isSome = true
    ∧ containsStr "# Journal\nhello" "# Journal" = true
    ∧ hasJournalHeaderContent "# Journal\nhello" = false :=
  ⟨by decide, by decide, by decide⟩

/-- Claim C7, amended: `getJournalContent` recognises a Journal Section
exactly when the text contains one of the literals `'# Journal'`,
`'## Journal'`, `'### Journal'` (case-sensitive substring), and returns the
trimmed join of the lines strictly after the found heading's line, up to the
first later line consisting of 1–6 `'#'`s (at most the found level) followed
by whitespace, or the end of text.  The indexing filter, however, does not
share this check: it tests the regex `'^##\s+Journal\s*$'` in multiline
mode, which accepts only full-line level-2 headings (with flexible
whitespace), diverging from the literal-substring test in both directions. -/
theorem journal_recognition_and_extraction (full : String) (js hl : Nat)
    (h : findJournalStart full.toList = some (js, hl)) :
    (∀ g : String, (getJournalContent g).isSome = true ↔
        (containsStr g "# Journal" = true ∨ containsStr g "## Journal" = true
          ∨ containsStr g "### Journal" = true))
    ∧ getJournalContent full
        = some (String.mk (trimC (joinLines
            (((splitLines full.toList).drop (countNl (full.toList.take js) + 1)).takeWhile
              (fun line => !(isHeadingLE hl line))))))
    ∧ (hl = 1 ∨ hl = 2 ∨ hl = 3)
    ∧ (headerLit hl).isPrefixOf (full.toList.drop js) = true
    ∧ hasJournalHeaderContent "x\n## Journal\ny" = true
    ∧ hasJournalHeaderContent "x ## Journal y" = false
    ∧ containsStr "x ## Journal y" "## Journal" = true
    ∧ hasJournalHeaderContent "##\t Journal" = true
    ∧ containsStr "##\t Journal" "# Journal" = false := by
  obtain ⟨hlev, hpfx⟩ := findJournalStart_some_elim full.toList js hl h
  refine ⟨?_, getJournalContent_found full js hl h, hlev, hpfx,
    by decide, by decide, by decide, by decide, by decide⟩
  intro g
  rw [getJournalContent_isSome g]
  exact findJournalStart_isSome_iff g.toList

/-- Claim C7 witness: the amended theorem applied at a document whose
earliest journal heading is the level-2 `'## Journal'` on its second line. -/
theorem journal_recognition_and_extraction_witness :
    findJournalStart ("x\n## Journal\nbody\n# End" : String).toList = some (2, 2)
    ∧ ((∀ g : String, (getJournalContent g).isSome = true ↔
          (containsStr g "# Journal" = true ∨ containsStr g "## Journal" = true
            ∨ containsStr g "### Journal" = true))
      ∧ getJournalContent "x\n## Journal\nbody\n# End"
          = some (String.mk (trimC (joinLines
              (((splitLines ("x\n## Journal\nbody\n# End" : String).toList).drop
                  (countNl (("x\n## Journal\nbody\n# End" : String).toList.take 2) + 1)).takeWhile
                (fun line => !(isHeadingLE 2 line))))))
      ∧ ((2 : Nat) = 1 ∨ (2 : Nat) = 2 ∨ (2 : Nat) = 3)
      ∧ (headerLit 2).isPrefixOf (("x\n## Journal\nbody\n# End" : String).toList.drop 2) = true
      ∧ hasJournalHeaderContent "x\n## Journal\ny" = true
      ∧ hasJournalHeaderContent "x ## Journal y" = false
      ∧ containsStr "x ## Journal y" "## Journal" = true
      ∧ hasJournalHeaderContent "##\t Journal" = true
      ∧ containsStr "##\t Journal" "# Journal" = false) :=
  ⟨by decide,
    journal_recognition_and_extraction "x\n## Journal\nbody\n# End" 2 2 (by decide)⟩
